import Mathlib

/-!
Verification of the elevator core (`Elevator.py`) against its specification.

The `Elevator` class is shallowly embedded below.  Python integers become
`Int`.  The source keeps, for each of the two request queues, a binary heap
(a Python list) and a mirror membership set that always hold exactly the same
floors (`_addUp`/`_addDown` push to the heap only after the set-membership
test fails, `_removeFloor` filters the heap exactly when it removes from the
set, and `reset` clears both).  Every read of a queue in the source
(`sorted(...)` iteration, `min`, `max`, linear filters, membership tests) is a
pure function of the multiset of stored values, so the embedding keeps a
single `List Int` per queue: `upHeap` holds the up-queue floors and
`downHeap` holds the *negated* down-queue floors, exactly as the source
stores them (`heapq.heappush(self._downHeap, -1 * floor)`).

Raising `ValueError` is embedded by returning the state at the moment of the
raise paired with `some` error kind; the constructor argument `timePerFloor`
is a float that the core stores but never reads, so it is omitted.
-/

namespace TheElevator

/-- The three `ValueError` kinds the core raises (spec's `InvalidFloor`,
`InvalidDirection`, `InvalidStepCount`). -/
inductive ElevError where
  | invalidFloor
  | invalidDirection
  | invalidStepCount
deriving DecidableEq

/-- The mutable state of the Python `Elevator` object (`__init__`).
`downHeap` stores negated floors, as in the source. -/
structure Elevator where
  id : Int
  maxFloor : Int
  currentFloor : Int
  direction : Int
  upHeap : List Int
  downHeap : List Int
  activeTarget : Option Int
deriving DecidableEq

/-- `Elevator.__init__(elevatorId, maxFloor)`: floor 0, direction idle,
empty queues, no active target. -/
def init (elevatorId maxFloor : Int) : Elevator :=
  { id := elevatorId
    maxFloor := maxFloor
    currentFloor := 0
    direction := 0
    upHeap := []
    downHeap := []
    activeTarget := none }

/-- Python's `sorted` on a list of ints (ascending). -/
def sortAsc (l : List Int) : List Int := l.insertionSort (fun a b => a ≤ b)

/-- `_validateFloor`: `ValueError` when the floor is negative or exceeds
`maxFloor`. -/
def _validateFloor (e : Elevator) (floor : Int) : Option ElevError :=
  if floor < 0 then some .invalidFloor
  else if e.maxFloor < floor then some .invalidFloor
  else none

/-- `_validateDirection`: `ValueError` when `direction not in (-1, 0, 1)`. -/
def _validateDirection (direction : Int) : Option ElevError :=
  if direction = -1 ∨ direction = 0 ∨ direction = 1 then none
  else some .invalidDirection

/-- `_addUp`: push onto the up queue unless the floor is already a member;
return whether an insertion occurred. -/
def _addUp (e : Elevator) (floor : Int) : Elevator × Bool :=
  if floor ∈ e.upHeap then (e, false)
  else ({ e with upHeap := floor :: e.upHeap }, true)

/-- `_addDown`: push `-1 * floor` onto the down queue unless the floor is
already a member; return whether an insertion occurred. -/
def _addDown (e : Elevator) (floor : Int) : Elevator × Bool :=
  if (-floor) ∈ e.downHeap then (e, false)
  else ({ e with downHeap := (-floor) :: e.downHeap }, true)

/-- `_peekUp`: first floor in `sorted(self._upHeap)` strictly above
`currentFloor`, or none. -/
def _peekUp (e : Elevator) (currentFloor : Int) : Option Int :=
  (sortAsc e.upHeap).find? (fun floor => decide (currentFloor < floor))

/-- `_peekDown`: iterate `sorted(self._downHeap)` (negated floors,
ascending, i.e. floors descending), return the first floor strictly below
`currentFloor`, or none. -/
def _peekDown (e : Elevator) (currentFloor : Int) : Option Int :=
  ((sortAsc e.downHeap).find? (fun negFloor => decide (-negFloor < currentFloor))).map
    (fun negFloor => -negFloor)

/-- `_peekAnyUp`: `None` on an empty up queue, else `min(self._upHeap)`. -/
def _peekAnyUp (e : Elevator) : Option Int :=
  e.upHeap.min?

/-- `_peekAnyDown`: `None` on an empty down queue, else
`-1 * min(self._downHeap)` (the highest stored floor). -/
def _peekAnyDown (e : Elevator) : Option Int :=
  e.downHeap.min?.map (fun negFloor => -negFloor)

/-- `_peekDownAbove`: the maximum of the down-queue floors strictly above
`currentFloor`, or none (the source collects `-negFloor > currentFloor` into
`validFloors` and takes `max`). -/
def _peekDownAbove (e : Elevator) (currentFloor : Int) : Option Int :=
  ((e.downHeap.map (fun negFloor => -negFloor)).filter
    (fun floor => decide (currentFloor < floor))).max?

/-- `_peekUpBelow`: the minimum of the up-queue floors strictly below
`currentFloor`, or none. -/
def _peekUpBelow (e : Elevator) (currentFloor : Int) : Option Int :=
  (e.upHeap.filter (fun floor => decide (floor < currentFloor))).min?

/-- `_removeFloor`: remove `floor` from the queue matching the current
direction (filtering the heap exactly as the source does); no-op when the
direction is idle or the floor is absent. -/
def _removeFloor (e : Elevator) (floor : Int) : Elevator :=
  if 0 < e.direction then
    if floor ∈ e.upHeap then
      { e with upHeap := e.upHeap.filter (fun f => decide (f ≠ floor)) }
    else e
  else if e.direction < 0 then
    if (-floor) ∈ e.downHeap then
      { e with downHeap := e.downHeap.filter (fun f => decide (f ≠ -floor)) }
    else e
  else e

/-- `_nextTarget`: the SCAN/LOOK target-selection cascade of the source. -/
def _nextTarget (e : Elevator) : Option Int :=
  if 0 < e.direction then
    match _peekUp e e.currentFloor with
    | some target => some target
    | none =>
      match _peekDownAbove e e.currentFloor with
      | some target => some target
      | none =>
        match _peekDown e e.currentFloor with
        | some target => some target
        | none => _peekUpBelow e e.currentFloor
  else if e.direction < 0 then
    match _peekDown e e.currentFloor with
    | some target => some target
    | none =>
      match _peekUpBelow e e.currentFloor with
      | some target => some target
      | none =>
        match _peekUp e e.currentFloor with
        | some target => some target
        | none => _peekDownAbove e e.currentFloor
  else
    match _peekAnyUp e, _peekAnyDown e with
    | none, none => none
    | none, some downNext => some downNext
    | some upNext, none => some upNext
    | some upNext, some downNext =>
      if (upNext - e.currentFloor).natAbs ≤ (downNext - e.currentFloor).natAbs then
        some upNext
      else some downNext

/-- `_advanceOnce`: one unit move of the motion engine.  Note the source
removes `self.currentFloor` (the departure floor) from the direction's queue
*before* incrementing/decrementing `currentFloor`. -/
def _advanceOnce (e : Elevator) : Elevator :=
  match e.activeTarget with
  | none => { e with direction := 0 }
  | some target =>
    let e1 :=
      if e.currentFloor < target then
        let ed := _removeFloor { e with direction := 1 } e.currentFloor
        { ed with currentFloor := ed.currentFloor + 1 }
      else if target < e.currentFloor then
        let ed := _removeFloor { e with direction := -1 } e.currentFloor
        { ed with currentFloor := ed.currentFloor - 1 }
      else e
    if e1.currentFloor = target then
      { e1 with activeTarget := _nextTarget e1 }
    else e1

/-- `for _ in range(n): self._advanceOnce()`. -/
def advanceN : Nat → Elevator → Elevator
  | 0, e => e
  | n + 1, e => advanceN n (_advanceOnce e)

/-- `step(steps)`: validate `steps >= 1`, run `steps` unit advances, and
reset the direction to idle when no target remains and `steps > 1`. -/
def step (e : Elevator) (steps : Int) : Elevator × Option ElevError :=
  if steps < 1 then (e, some .invalidStepCount)
  else
    let e1 := advanceN steps.toNat e
    let e2 :=
      if e1.activeTarget = none ∧ 1 < steps then { e1 with direction := 0 }
      else e1
    (e2, none)

/-- `requestFloor(floor, direction)`: validation, the three intake branches
(internal, external up with its boarding shortcut, external down with its
boarding shortcut), then recomputation of the active target.  The boarding
shortcut is an early `return`, which skips the target recomputation. -/
def requestFloor (e : Elevator) (floor direction : Int) : Elevator × Option ElevError :=
  match _validateFloor e floor with
  | some err => (e, some err)
  | none =>
    match _validateDirection direction with
    | some err => (e, some err)
    | none =>
      if direction = 0 then
        let e1 :=
          if e.currentFloor < floor then (_addUp e floor).1
          else if floor < e.currentFloor then (_addDown e floor).1
          else e
        ({ e1 with activeTarget := _nextTarget e1 }, none)
      else if direction = 1 then
        if floor = e.currentFloor ∧ 0 ≤ e.direction then (e, none)
        else
          let e1 := (_addUp e floor).1
          ({ e1 with activeTarget := _nextTarget e1 }, none)
      else
        if floor = e.currentFloor ∧ e.direction ≤ 0 then (e, none)
        else
          let e1 := (_addDown e floor).1
          ({ e1 with activeTarget := _nextTarget e1 }, none)

/-- `reset()`: restore the construction-time state (identity and `maxFloor`
are kept). -/
def reset (e : Elevator) : Elevator :=
  { e with
    currentFloor := 0
    direction := 0
    upHeap := []
    downHeap := []
    activeTarget := none }

/-- The `status()` snapshot: queue contents are reported as the sorted
membership sets (`sorted(self._upSet)` ascending,
`sorted(self._downSet, reverse=True)` descending). -/
structure Snapshot where
  id : Int
  currentFloor : Int
  direction : Int
  queueUp : List Int
  queueDown : List Int
  activeTarget : Option Int
deriving DecidableEq

/-- `status()`. -/
def status (e : Elevator) : Snapshot :=
  { id := e.id
    currentFloor := e.currentFloor
    direction := e.direction
    queueUp := sortAsc e.upHeap.dedup
    queueDown := (sortAsc ((e.downHeap.map (fun negFloor => -negFloor)).dedup)).reverse
    activeTarget := e.activeTarget }

/-- A public operation invoked by the caller (the HTTP layer). -/
inductive Op where
  | request (floor direction : Int)
  | step (steps : Int)
  | reset
deriving DecidableEq

/-- Apply one public operation.  A raised `ValueError` propagates to the
caller and leaves the object in the state it had at the raise. -/
def applyOp (e : Elevator) (op : Op) : Elevator :=
  match op with
  | .request floor direction => (requestFloor e floor direction).1
  | .step steps => (step e steps).1
  | .reset => reset e

/-- Run a sequence of public operations. -/
def run (e : Elevator) (ops : List Op) : Elevator :=
  ops.foldl applyOp e

/-- The reachable state after `requestFloor(2, 0); step(1); step(1)` on a
fresh elevator with `maxFloor = 10`: the car has arrived at floor 2, the up
queue still holds floor 2, and there is no active target. -/
def stuckState : Elevator := run (init 1 10) [.request 2 0, .step 1, .step 1]

/-- The reachable state after `requestFloor(5, 1); step(5)` on a fresh
elevator with `maxFloor = 10`: the car has arrived at floor 5. -/
def servicedState : Elevator := run (init 1 10) [.request 5 1, .step 5]

/-- The down-queue floors in positive form (the source stores them negated). -/
def downFloors (e : Elevator) : List Int :=
  e.downHeap.map (fun negFloor => -negFloor)

/-- Spec selector "nearest Down-queue floor strictly below the current
floor": the largest such floor. -/
def nearestDownBelow (e : Elevator) : Option Int :=
  ((downFloors e).filter (fun floor => decide (floor < e.currentFloor))).max?

/-- Claim C4's selector (2) as stated — the *nearest* up-queue floor strictly
below the current floor, i.e. the largest such floor. -/
def nearestUpBelow (e : Elevator) : Option Int :=
  (e.upHeap.filter (fun floor => decide (floor < e.currentFloor))).max?

/-- The down-direction look-ahead selector the code actually uses: the
*lowest* (farthest) up-queue floor strictly below the current floor. -/
def lowestUpBelow (e : Elevator) : Option Int :=
  (e.upHeap.filter (fun floor => decide (floor < e.currentFloor))).min?

/-- Spec selector "nearest up-queue floor strictly above the current floor":
the smallest such floor. -/
def nearestUpAbove (e : Elevator) : Option Int :=
  (e.upHeap.filter (fun floor => decide (e.currentFloor < floor))).min?

/-- Spec selector "farthest down-queue floor strictly above the current
floor": the largest such floor. -/
def farthestDownAbove (e : Elevator) : Option Int :=
  ((downFloors e).filter (fun floor => decide (e.currentFloor < floor))).max?

/-- The moving-Down scheduler cascade exactly as claim C4 states it:
(1) nearest down-floor below, (2) nearest up-floor below, (3) nearest
up-floor above, (4) farthest down-floor above, else none. -/
def claimDownScheduler (e : Elevator) : Option Int :=
  match nearestDownBelow e with
  | some target => some target
  | none =>
    match nearestUpBelow e with
    | some target => some target
    | none =>
      match nearestUpAbove e with
      | some target => some target
      | none => farthestDownAbove e

/-- The moving-Down scheduler cascade with step (2) amended to the lowest
(farthest) up-queue floor below the current floor. -/
def amendedDownScheduler (e : Elevator) : Option Int :=
  match nearestDownBelow e with
  | some target => some target
  | none =>
    match lowestUpBelow e with
    | some target => some target
    | none =>
      match nearestUpAbove e with
      | some target => some target
      | none => farthestDownAbove e

/-- A car at floor 5 moving down, with up-requests pending at floors 1
and 3 and an empty down queue. -/
def downCar : Elevator :=
  { id := 1
    maxFloor := 10
    currentFloor := 5
    direction := -1
    upHeap := [1, 3]
    downHeap := []
    activeTarget := some 1 }

/-- All queued floors lie within `[0, maxFloor]`. -/
def QueuesBounded (e : Elevator) : Prop :=
  (∀ f ∈ e.upHeap, 0 ≤ f ∧ f ≤ e.maxFloor) ∧
  (∀ n ∈ e.downHeap, 0 ≤ -n ∧ -n ≤ e.maxFloor)

/-- The bounds invariant: current floor, queued floors and the active target
all lie within `[0, maxFloor]`. -/
def Inv (e : Elevator) : Prop :=
  (0 ≤ e.currentFloor ∧ e.currentFloor ≤ e.maxFloor) ∧ QueuesBounded e ∧
  ∀ t, e.activeTarget = some t → 0 ≤ t ∧ t ≤ e.maxFloor

instance : Std.Antisymm (fun (a b : Int) => a ≤ b) :=
  ⟨fun h h' => le_antisymm h h'⟩

/-! ### Helper lemmas about list minima, maxima and sorted search -/

lemma int_min?_eq_some_iff {l : List Int} {a : Int} :
    l.min? = some a ↔ a ∈ l ∧ ∀ b ∈ l, a ≤ b :=
  List.min?_eq_some_iff (fun a => le_refl a) (fun a b => min_choice a b)
    (fun _ _ _ => le_min_iff)

lemma int_max?_eq_some_iff {l : List Int} {a : Int} :
    l.max? = some a ↔ a ∈ l ∧ ∀ b ∈ l, b ≤ a :=
  List.max?_eq_some_iff (fun a => le_refl a) (fun a b => max_choice a b)
    (fun _ _ _ => max_le_iff)

/-- On an ascending-sorted list, the first element satisfying a predicate is
the minimum of the elements satisfying it. -/
lemma find?_eq_min?_filter_of_sorted {l : List Int}
    (hs : List.Sorted (fun a b => a ≤ b) l) (p : Int → Bool) :
    l.find? p = (l.filter p).min? := by
  induction l with
  | nil => rfl
  | cons a t ih =>
    rcases List.sorted_cons.mp hs with ⟨ha, ht⟩
    by_cases hp : p a
    · rw [List.find?_cons_of_pos _ hp, List.filter_cons_of_pos hp]
      refine (int_min?_eq_some_iff.mpr ⟨List.mem_cons_self _ _, ?_⟩).symm
      intro b hb
      rcases List.mem_cons.mp hb with rfl | hb
      · exact le_refl _
      · exact ha b (List.mem_of_mem_filter hb)
    · rw [List.find?_cons_of_neg _ hp, List.filter_cons_of_neg hp, ih ht]

lemma min?_eq_of_perm {S T : List Int} (h : S.Perm T) : S.min? = T.min? := by
  rcases hS : S.min? with _ | a
  · have hnil : S = [] := List.min?_eq_none_iff.mp hS
    subst hnil
    rw [h.symm.eq_nil]
    rfl
  · rcases int_min?_eq_some_iff.mp hS with ⟨h1, h2⟩
    exact (int_min?_eq_some_iff.mpr
      ⟨h.mem_iff.mp h1, fun b hb => h2 b (h.mem_iff.mpr hb)⟩).symm

lemma map_neg_min?_eq_max? (l : List Int) :
    (l.min?.map (fun n => -n)) = (l.map (fun n => -n)).max? := by
  rcases h : l.min? with _ | a
  · have hnil : l = [] := List.min?_eq_none_iff.mp h
    subst hnil
    rfl
  · rcases int_min?_eq_some_iff.mp h with ⟨h1, h2⟩
    simp only [Option.map_some']
    refine (int_max?_eq_some_iff.mpr ⟨List.mem_map_of_mem _ h1, ?_⟩).symm
    intro b hb
    rcases List.mem_map.mp hb with ⟨c, hc, rfl⟩
    exact neg_le_neg (h2 c hc)

/-! ### Error characterization of the two fallible operations -/

/-- The error component of `requestFloor` is decided entirely by the two
validators, in source order. -/
lemma requestFloor_snd (e : Elevator) (floor direction : Int) :
    (requestFloor e floor direction).2 =
      match _validateFloor e floor with
      | some err => some err
      | none =>
        match _validateDirection direction with
        | some err => some err
        | none => none := by
  unfold requestFloor
  cases hv : _validateFloor e floor with
  | some err => rfl
  | none =>
    cases hd : _validateDirection direction with
    | some err => rfl
    | none =>
      simp only []
      split
      · rfl
      · split
        · split
          · rfl
          · rfl
        · split
          · rfl
          · rfl

/-- The error component of `step` is decided by the `steps < 1` check. -/
lemma step_snd (e : Elevator) (steps : Int) :
    (step e steps).2 = if steps < 1 then some .invalidStepCount else none := by
  unfold step
  split
  · rfl
  · rfl

lemma sortAsc_sorted (l : List Int) : List.Sorted (fun a b => a ≤ b) (sortAsc l) :=
  List.sorted_insertionSort _ l

lemma sortAsc_perm (l : List Int) : (sortAsc l).Perm l :=
  List.perm_insertionSort _ l

/-- The first up-queue floor above `c` in sorted order is the minimum of the
up-queue floors above `c`. -/
lemma peekUp_eq (e : Elevator) (c : Int) :
    _peekUp e c = (e.upHeap.filter (fun floor => decide (c < floor))).min? := by
  unfold _peekUp
  rw [find?_eq_min?_filter_of_sorted (sortAsc_sorted _) _]
  exact min?_eq_of_perm ((sortAsc_perm _).filter _)

/-- The first down-queue floor below `c` in the source's descending
iteration is the maximum of the down-queue floors below `c`. -/
lemma peekDown_eq (e : Elevator) (c : Int) :
    _peekDown e c =
      ((e.downHeap.map (fun negFloor => -negFloor)).filter
        (fun floor => decide (floor < c))).max? := by
  unfold _peekDown
  rw [find?_eq_min?_filter_of_sorted (sortAsc_sorted _) _]
  rw [min?_eq_of_perm ((sortAsc_perm _).filter _)]
  rw [map_neg_min?_eq_max? _]
  rw [List.filter_map]
  rfl

/-! ### Shape lemmas for `requestFloor` and the queue insertions -/

lemma validateFloor_none (e : Elevator) {floor : Int} (h0 : 0 ≤ floor)
    (hm : floor ≤ e.maxFloor) : _validateFloor e floor = none := by
  unfold _validateFloor
  rw [if_neg (by omega), if_neg (by omega)]

lemma addUp_of_mem {e : Elevator} {floor : Int} (h : floor ∈ e.upHeap) :
    _addUp e floor = (e, false) := by
  unfold _addUp
  rw [if_pos h]

lemma addDown_of_mem {e : Elevator} {floor : Int} (h : (-floor) ∈ e.downHeap) :
    _addDown e floor = (e, false) := by
  unfold _addDown
  rw [if_pos h]

lemma addUp_of_not_mem {e : Elevator} {floor : Int} (h : floor ∉ e.upHeap) :
    (_addUp e floor).1 = { e with upHeap := floor :: e.upHeap } := by
  unfold _addUp
  rw [if_neg h]

lemma addDown_of_not_mem {e : Elevator} {floor : Int} (h : (-floor) ∉ e.downHeap) :
    (_addDown e floor).1 = { e with downHeap := (-floor) :: e.downHeap } := by
  unfold _addDown
  rw [if_neg h]

lemma mem_addUp (e : Elevator) (floor : Int) :
    floor ∈ (_addUp e floor).1.upHeap := by
  by_cases h : floor ∈ e.upHeap
  · rw [addUp_of_mem h]
    exact h
  · rw [addUp_of_not_mem h]
    exact List.mem_cons_self _ _

lemma mem_addDown (e : Elevator) (floor : Int) :
    (-floor) ∈ (_addDown e floor).1.downHeap := by
  by_cases h : (-floor) ∈ e.downHeap
  · rw [addDown_of_mem h]
    exact h
  · rw [addDown_of_not_mem h]
    exact List.mem_cons_self _ _

lemma addUp_fields (e : Elevator) (floor : Int) :
    (_addUp e floor).1.id = e.id ∧ (_addUp e floor).1.maxFloor = e.maxFloor ∧
      (_addUp e floor).1.currentFloor = e.currentFloor ∧
      (_addUp e floor).1.direction = e.direction ∧
      (_addUp e floor).1.downHeap = e.downHeap ∧
      (_addUp e floor).1.activeTarget = e.activeTarget := by
  unfold _addUp
  split <;> exact ⟨rfl, rfl, rfl, rfl, rfl, rfl⟩

lemma addDown_fields (e : Elevator) (floor : Int) :
    (_addDown e floor).1.id = e.id ∧ (_addDown e floor).1.maxFloor = e.maxFloor ∧
      (_addDown e floor).1.currentFloor = e.currentFloor ∧
      (_addDown e floor).1.direction = e.direction ∧
      (_addDown e floor).1.upHeap = e.upHeap ∧
      (_addDown e floor).1.activeTarget = e.activeTarget := by
  unfold _addDown
  split <;> exact ⟨rfl, rfl, rfl, rfl, rfl, rfl⟩

/-- The in-bounds internal-request branch of `requestFloor`. -/
lemma requestFloor_internal (e : Elevator) {floor : Int} (h0 : 0 ≤ floor)
    (hm : floor ≤ e.maxFloor) :
    requestFloor e floor 0 =
      (let e1 := if e.currentFloor < floor then (_addUp e floor).1
                 else if floor < e.currentFloor then (_addDown e floor).1 else e
       ({ e1 with activeTarget := _nextTarget e1 }, none)) := by
  unfold requestFloor
  rw [validateFloor_none e h0 hm]
  rfl

/-- The in-bounds external-up branch of `requestFloor`. -/
lemma requestFloor_up (e : Elevator) {floor : Int} (h0 : 0 ≤ floor)
    (hm : floor ≤ e.maxFloor) :
    requestFloor e floor 1 =
      if floor = e.currentFloor ∧ 0 ≤ e.direction then (e, none)
      else ({ (_addUp e floor).1 with
              activeTarget := _nextTarget (_addUp e floor).1 }, none) := by
  unfold requestFloor
  rw [validateFloor_none e h0 hm]
  rfl

/-- The in-bounds external-down branch of `requestFloor`. -/
lemma requestFloor_down (e : Elevator) {floor : Int} (h0 : 0 ≤ floor)
    (hm : floor ≤ e.maxFloor) :
    requestFloor e floor (-1) =
      if floor = e.currentFloor ∧ e.direction ≤ 0 then (e, none)
      else ({ (_addDown e floor).1 with
              activeTarget := _nextTarget (_addDown e floor).1 }, none) := by
  unfold requestFloor
  rw [validateFloor_none e h0 hm]
  rfl

/-- `_nextTarget` never reads the active-target field. -/
lemma nextTarget_retarget (e : Elevator) (x : Option Int) :
    _nextTarget { e with activeTarget := x } = _nextTarget e := rfl

lemma retarget_self (e : Elevator) :
    { e with activeTarget := e.activeTarget } = e := rfl

/-- A second internal request for a floor already queued on the side its
comparison selects is a complete no-op (given the state's target is already
the scheduler's choice). -/
lemma requestFloor_internal_noop (r : Elevator) {floor : Int}
    (h0 : 0 ≤ floor) (hm : floor ≤ r.maxFloor)
    (hts : r.activeTarget = _nextTarget r)
    (hup : r.currentFloor < floor → floor ∈ r.upHeap)
    (hdn : floor < r.currentFloor → (-floor) ∈ r.downHeap) :
    (requestFloor r floor 0).1 = r := by
  rw [requestFloor_internal r h0 hm]
  simp only []
  by_cases hlt : r.currentFloor < floor
  · rw [if_pos hlt, addUp_of_mem (hup hlt)]
    show { r with activeTarget := _nextTarget r } = r
    rw [← hts]
  · rw [if_neg hlt]
    by_cases hgt : floor < r.currentFloor
    · rw [if_pos hgt, addDown_of_mem (hdn hgt)]
      show { r with activeTarget := _nextTarget r } = r
      rw [← hts]
    · rw [if_neg hgt]
      show { r with activeTarget := _nextTarget r } = r
      rw [← hts]

lemma requestFloor_up_noop (r : Elevator) {floor : Int}
    (h0 : 0 ≤ floor) (hm : floor ≤ r.maxFloor)
    (hts : r.activeTarget = _nextTarget r)
    (hmem : floor ∈ r.upHeap) :
    (requestFloor r floor 1).1 = r := by
  rw [requestFloor_up r h0 hm]
  by_cases hsc : floor = r.currentFloor ∧ 0 ≤ r.direction
  · rw [if_pos hsc]
  · rw [if_neg hsc, addUp_of_mem hmem]
    show { r with activeTarget := _nextTarget r } = r
    rw [← hts]

lemma requestFloor_down_noop (r : Elevator) {floor : Int}
    (h0 : 0 ≤ floor) (hm : floor ≤ r.maxFloor)
    (hts : r.activeTarget = _nextTarget r)
    (hmem : (-floor) ∈ r.downHeap) :
    (requestFloor r floor (-1)).1 = r := by
  rw [requestFloor_down r h0 hm]
  by_cases hsc : floor = r.currentFloor ∧ r.direction ≤ 0
  · rw [if_pos hsc]
  · rw [if_neg hsc, addDown_of_mem hmem]
    show { r with activeTarget := _nextTarget r } = r
    rw [← hts]

lemma addUp_count (e : Elevator) {floor : Int} (h : e.upHeap.count floor ≤ 1) :
    (_addUp e floor).1.upHeap.count floor ≤ 1 := by
  by_cases hm : floor ∈ e.upHeap
  · rw [addUp_of_mem hm]
    exact h
  · rw [addUp_of_not_mem hm]
    show (floor :: e.upHeap).count floor ≤ 1
    rw [List.count_cons_self, List.count_eq_zero.mpr hm]

lemma addDown_count (e : Elevator) {floor : Int}
    (h : e.downHeap.count (-floor) ≤ 1) :
    (_addDown e floor).1.downHeap.count (-floor) ≤ 1 := by
  by_cases hm : (-floor) ∈ e.downHeap
  · rw [addDown_of_mem hm]
    exact h
  · rw [addDown_of_not_mem hm]
    show ((-floor) :: e.downHeap).count (-floor) ≤ 1
    rw [List.count_cons_self, List.count_eq_zero.mpr hm]

/-! ### Claim theorems -/

/-- C1: the spec invariant "`activeTarget` is `None` iff both queues are
empty and the car is Idle" fails on the code: after
`requestFloor(2, 0); step(1); step(1)` on a fresh elevator the active target
is `None` while the up queue still holds floor 2 and the direction is Up.
The motion engine removes the departure floor, never the arrival floor, so
the serviced floor 2 survives in its queue (the repository's own test suite
asserts serviced floors leave the queue). -/
theorem activeTarget_none_invariant_fails :
    stuckState.activeTarget = none ∧ stuckState.upHeap = [2] ∧
      stuckState.direction = 1 := by
  decide

/-- C2: the claim that a unit advance arriving at the active target removes
the arrival floor from the traveled direction's queue fails on the code:
after `requestFloor(5, 1); step(5)` the car has arrived at its target,
floor 5, the scheduler has already been re-invoked (the active target is
`None`), yet floor 5 is still a member of the up queue.  The code removes
`currentFloor` before each unit move (the departure floor) and performs no
removal on arrival. -/
theorem arrival_floor_remains_in_queue :
    servicedState.currentFloor = 5 ∧ servicedState.activeTarget = none ∧
      5 ∈ servicedState.upHeap := by
  decide

/-- C3 counterexample: in the reachable state `stuckState` the active target
is `None` and the up queue is non-empty, yet `step(1)` does not acquire a
target or move — it leaves the floor unchanged, keeps the target `None` and
merely sets the direction to Idle.  This refutes the claim that an advance
beginning with a `None` target first consults the scheduler and that
`step(1)` with a non-empty queue acquires and moves toward a target. -/
theorem step_with_pending_queue_idles :
    stuckState.activeTarget = none ∧ stuckState.upHeap ≠ [] ∧
      (step stuckState 1).1.currentFloor = stuckState.currentFloor ∧
      (step stuckState 1).1.activeTarget = none ∧
      (step stuckState 1).1.direction = 0 := by
  decide

/-- C3 amended: a unit advance that begins with `activeTarget = None` sets
the direction to Idle and does nothing else — the scheduler is not consulted
and the car does not move, even when a queue is non-empty; `step(1)` from
such a state returns the same idled state. -/
theorem advance_with_no_target_idles (e : Elevator)
    (h : e.activeTarget = none) :
    _advanceOnce e = { e with direction := 0 } ∧
      (step e 1).1 = { e with direction := 0 } := by
  have h1 : _advanceOnce e = { e with direction := 0 } := by
    unfold _advanceOnce
    rw [h]
  refine ⟨h1, ?_⟩
  have h2 : advanceN (1 : Int).toNat e = { e with direction := 0 } := by
    have ht : (1 : Int).toNat = 1 := rfl
    rw [ht]
    unfold advanceN advanceN
    exact h1
  unfold step
  rw [if_neg (by omega : ¬ (1 : Int) < 1)]
  simp only [h2]
  simp

/-- C3 amended, witness: the amended statement evaluated on a fresh
elevator, which has no active target. -/
theorem advance_with_no_target_idles_witness :
    _advanceOnce (init 1 10) = { (init 1 10) with direction := 0 } ∧
      (step (init 1 10) 1).1 = { (init 1 10) with direction := 0 } :=
  advance_with_no_target_idles (init 1 10) rfl

/-- C7: `reset` after an arbitrary sequence of (successful or failing)
operations, from an arbitrary starting state, leaves the car at floor 0,
Idle, with both queues empty and no active target, and reports exactly that
snapshot. -/
theorem reset_roundtrip (e : Elevator) (ops : List Op) :
    (status (reset (run e ops))).currentFloor = 0 ∧
      (status (reset (run e ops))).direction = 0 ∧
      (status (reset (run e ops))).queueUp = [] ∧
      (status (reset (run e ops))).queueDown = [] ∧
      (status (reset (run e ops))).activeTarget = none ∧
      (reset (run e ops)).currentFloor = 0 ∧
      (reset (run e ops)).direction = 0 ∧
      (reset (run e ops)).upHeap = [] ∧
      (reset (run e ops)).downHeap = [] ∧
      (reset (run e ops)).activeTarget = none :=
  ⟨rfl, rfl, rfl, rfl, rfl, rfl, rfl, rfl, rfl, rfl⟩

/-- C6: `requestFloor` fails with `InvalidFloor` exactly when the floor is
negative or exceeds `maxFloor`, fails with `InvalidDirection` exactly when
the floor is in bounds and the direction is outside `{-1, 0, 1}`, and
otherwise succeeds; `step` fails with `InvalidStepCount` exactly when
`steps < 1` and otherwise succeeds.  (`reset` and `status` are total
functions of the state and cannot fail.) -/
theorem validation_error_characterization (e : Elevator)
    (floor direction steps : Int) :
    ((requestFloor e floor direction).2 = some ElevError.invalidFloor ↔
      floor < 0 ∨ e.maxFloor < floor) ∧
    ((requestFloor e floor direction).2 = some ElevError.invalidDirection ↔
      0 ≤ floor ∧ floor ≤ e.maxFloor ∧
        ¬(direction = -1 ∨ direction = 0 ∨ direction = 1)) ∧
    ((requestFloor e floor direction).2 = none ↔
      0 ≤ floor ∧ floor ≤ e.maxFloor ∧
        (direction = -1 ∨ direction = 0 ∨ direction = 1)) ∧
    ((step e steps).2 = some ElevError.invalidStepCount ↔ steps < 1) ∧
    ((step e steps).2 = none ↔ 1 ≤ steps) := by
  rw [requestFloor_snd, step_snd]
  unfold _validateFloor _validateDirection
  by_cases h1 : floor < 0 <;>
    by_cases h2 : e.maxFloor < floor <;>
      by_cases h3 : (direction = -1 ∨ direction = 0 ∨ direction = 1) <;>
        by_cases h4 : steps < 1 <;>
          simp [h1, h2, h3, h4] <;> omega

/-- C9: an external up-request for the car's current floor while the
direction is Idle or Up changes nothing at all (boarding shortcut), and
symmetrically for a down-request while Idle or Down. -/
theorem boarding_shortcut_no_change (e : Elevator) :
    ((e.direction = 0 ∨ e.direction = 1) →
      (requestFloor e e.currentFloor 1).1 = e) ∧
    ((e.direction = 0 ∨ e.direction = -1) →
      (requestFloor e e.currentFloor (-1)).1 = e) := by
  constructor
  · intro h
    have hdir : (0 : Int) ≤ e.direction := by rcases h with h | h <;> omega
    unfold requestFloor
    cases hv : _validateFloor e e.currentFloor with
    | some err => rfl
    | none =>
      have hd : _validateDirection 1 = none := rfl
      rw [hd]
      simp only []
      simp [hdir]
  · intro h
    have hdir : e.direction ≤ 0 := by rcases h with h | h <;> omega
    unfold requestFloor
    cases hv : _validateFloor e e.currentFloor with
    | some err => rfl
    | none =>
      have hd : _validateDirection (-1) = none := rfl
      rw [hd]
      simp only []
      simp [hdir]

/-- C9 witness: the shortcut evaluated on a fresh (idle) elevator, in both
directions. -/
theorem boarding_shortcut_no_change_witness :
    (requestFloor (init 1 10) (init 1 10).currentFloor 1).1 = init 1 10 ∧
      (requestFloor (init 1 10) (init 1 10).currentFloor (-1)).1 = init 1 10 :=
  ⟨(boarding_shortcut_no_change (init 1 10)).1 (Or.inl rfl),
    (boarding_shortcut_no_change (init 1 10)).2 (Or.inl rfl)⟩

/-- C10: a `requestFloor` or `step` call that fails validation leaves the
entire car state exactly as it was — validation precedes every mutation. -/
theorem failed_call_leaves_state_unchanged (e : Elevator)
    (floor direction steps : Int) :
    ((requestFloor e floor direction).2.isSome = true →
      (requestFloor e floor direction).1 = e) ∧
    ((step e steps).2.isSome = true → (step e steps).1 = e) := by
  constructor
  · intro h
    unfold requestFloor at h ⊢
    cases hv : _validateFloor e floor with
    | some err => rfl
    | none =>
      cases hd : _validateDirection direction with
      | some err => rfl
      | none =>
        rw [hv, hd] at h
        exfalso
        simp only [] at h
        split at h
        · simp at h
        · split at h
          · split at h
            · simp at h
            · simp at h
          · split at h
            · simp at h
            · simp at h
  · intro h
    by_cases hs : steps < 1
    · unfold step
      rw [if_pos hs]
    · rw [step_snd, if_neg hs] at h
      simp at h

/-- C10 witness: an out-of-range floor request and a zero-step call on a
fresh elevator both fail and leave the state unchanged. -/
theorem failed_call_leaves_state_unchanged_witness :
    (requestFloor (init 1 10) (-1) 1).1 = init 1 10 ∧
      (step (init 1 10) 0).1 = init 1 10 :=
  ⟨(failed_call_leaves_state_unchanged (init 1 10) (-1) 1 0).1 (by decide),
    (failed_call_leaves_state_unchanged (init 1 10) (-1) 1 0).2 (by decide)⟩

/-- C8: for any state and valid `(floor, direction)` pair, a second
identical `requestFloor` call leaves the whole state exactly as after the
first call; after the call the floor has at most one entry in each queue
(given it had at most one before), and a duplicate insertion reports
`false` and changes nothing. -/
theorem duplicate_request_idempotent (e : Elevator) (floor direction : Int)
    (h0 : 0 ≤ floor) (hm : floor ≤ e.maxFloor)
    (hd : direction = -1 ∨ direction = 0 ∨ direction = 1)
    (hcu : e.upHeap.count floor ≤ 1) (hcd : e.downHeap.count (-floor) ≤ 1) :
    (requestFloor (requestFloor e floor direction).1 floor direction).1 =
      (requestFloor e floor direction).1 ∧
    (requestFloor e floor direction).1.upHeap.count floor ≤ 1 ∧
    (requestFloor e floor direction).1.downHeap.count (-floor) ≤ 1 ∧
    (floor ∈ e.upHeap → _addUp e floor = (e, false)) ∧
    ((-floor) ∈ e.downHeap → _addDown e floor = (e, false)) := by
  rcases hd with rfl | rfl | rfl
  · rw [requestFloor_down e h0 hm]
    by_cases hsc : floor = e.currentFloor ∧ e.direction ≤ 0
    · rw [if_pos hsc]
      refine ⟨?_, hcu, hcd, fun h => addUp_of_mem h, fun h => addDown_of_mem h⟩
      show (requestFloor e floor (-1)).1 = e
      rw [requestFloor_down e h0 hm, if_pos hsc]
    · rw [if_neg hsc]
      refine ⟨?_, ?_, ?_, fun h => addUp_of_mem h, fun h => addDown_of_mem h⟩
      · refine requestFloor_down_noop _ h0 ?_ ?_ ?_
        · show floor ≤ (_addDown e floor).1.maxFloor
          rw [(addDown_fields e floor).2.1]
          exact hm
        · exact (nextTarget_retarget _ _).symm
        · exact mem_addDown e floor
      · show (_addDown e floor).1.upHeap.count floor ≤ 1
        rw [(addDown_fields e floor).2.2.2.2.1]
        exact hcu
      · exact addDown_count e hcd
  · rw [requestFloor_internal e h0 hm]
    simp only []
    by_cases hlt : e.currentFloor < floor
    · rw [if_pos hlt]
      refine ⟨?_, ?_, ?_, fun h => addUp_of_mem h, fun h => addDown_of_mem h⟩
      · refine requestFloor_internal_noop _ h0 ?_ ?_ ?_ ?_
        · show floor ≤ (_addUp e floor).1.maxFloor
          rw [(addUp_fields e floor).2.1]
          exact hm
        · exact (nextTarget_retarget _ _).symm
        · exact fun _ => mem_addUp e floor
        · intro hgt
          exfalso
          have hgt2 : floor < (_addUp e floor).1.currentFloor := hgt
          rw [(addUp_fields e floor).2.2.1] at hgt2
          omega
      · exact addUp_count e hcu
      · show (_addUp e floor).1.downHeap.count (-floor) ≤ 1
        rw [(addUp_fields e floor).2.2.2.2.1]
        exact hcd
    · rw [if_neg hlt]
      by_cases hgt : floor < e.currentFloor
      · rw [if_pos hgt]
        refine ⟨?_, ?_, ?_, fun h => addUp_of_mem h, fun h => addDown_of_mem h⟩
        · refine requestFloor_internal_noop _ h0 ?_ ?_ ?_ ?_
          · show floor ≤ (_addDown e floor).1.maxFloor
            rw [(addDown_fields e floor).2.1]
            exact hm
          · exact (nextTarget_retarget _ _).symm
          · intro hlt2
            exfalso
            have hlt3 : (_addDown e floor).1.currentFloor < floor := hlt2
            rw [(addDown_fields e floor).2.2.1] at hlt3
            omega
          · exact fun _ => mem_addDown e floor
        · show (_addDown e floor).1.upHeap.count floor ≤ 1
          rw [(addDown_fields e floor).2.2.2.2.1]
          exact hcu
        · exact addDown_count e hcd
      · rw [if_neg hgt]
        refine ⟨?_, hcu, hcd, fun h => addUp_of_mem h, fun h => addDown_of_mem h⟩
        refine requestFloor_internal_noop _ h0 hm ?_ ?_ ?_
        · exact (nextTarget_retarget _ _).symm
        · exact fun h => absurd h hlt
        · exact fun h => absurd h hgt
  · rw [requestFloor_up e h0 hm]
    by_cases hsc : floor = e.currentFloor ∧ 0 ≤ e.direction
    · rw [if_pos hsc]
      refine ⟨?_, hcu, hcd, fun h => addUp_of_mem h, fun h => addDown_of_mem h⟩
      show (requestFloor e floor 1).1 = e
      rw [requestFloor_up e h0 hm, if_pos hsc]
    · rw [if_neg hsc]
      refine ⟨?_, ?_, ?_, fun h => addUp_of_mem h, fun h => addDown_of_mem h⟩
      · refine requestFloor_up_noop _ h0 ?_ ?_ ?_
        · show floor ≤ (_addUp e floor).1.maxFloor
          rw [(addUp_fields e floor).2.1]
          exact hm
        · exact (nextTarget_retarget _ _).symm
        · exact mem_addUp e floor
      · exact addUp_count e hcu
      · show (_addUp e floor).1.downHeap.count (-floor) ≤ 1
        rw [(addUp_fields e floor).2.2.2.2.1]
        exact hcd

/-- C4 counterexample: at floor 5 moving Down with up-requests at floors 1
and 3 and no down-requests, the code's scheduler selects floor 1 (the
lowest up-floor below) while the claim's cascade — whose step (2) asks for
the *nearest* up-floor below — selects floor 3. -/
theorem down_scheduler_nearest_claim_fails :
    downCar.direction = -1 ∧ _nextTarget downCar = some 1 ∧
      claimDownScheduler downCar = some 3 := by
  decide

/-- C4 amended: when the direction is Down, `_nextTarget` is exactly the
cascade (1) nearest down-queue floor strictly below, (2) otherwise the
*lowest* (farthest) up-queue floor strictly below, (3) otherwise the
nearest up-queue floor strictly above, (4) otherwise the farthest
down-queue floor strictly above, and `none` when all four are empty. -/
theorem nextTarget_down_cascade (e : Elevator) (h : e.direction = -1) :
    _nextTarget e = amendedDownScheduler e := by
  unfold _nextTarget
  rw [if_neg (by omega : ¬ 0 < e.direction), if_pos (by omega : e.direction < 0)]
  unfold amendedDownScheduler nearestDownBelow lowestUpBelow nearestUpAbove
    farthestDownAbove downFloors
  rw [peekDown_eq, peekUp_eq]
  rfl

/-- C4 amended, witness: the cascade evaluated on the concrete down-moving
car. -/
theorem nextTarget_down_cascade_witness :
    _nextTarget downCar = amendedDownScheduler downCar :=
  nextTarget_down_cascade downCar rfl

/-- C8 witness: a duplicate external up-request for floor 5 on a fresh
elevator. -/
theorem duplicate_request_idempotent_witness :
    (requestFloor (requestFloor (init 1 10) 5 1).1 5 1).1 =
      (requestFloor (init 1 10) 5 1).1 ∧
    (requestFloor (init 1 10) 5 1).1.upHeap.count 5 ≤ 1 ∧
    (requestFloor (init 1 10) 5 1).1.downHeap.count (-5) ≤ 1 ∧
    ((5 : Int) ∈ (init 1 10).upHeap → _addUp (init 1 10) 5 = (init 1 10, false)) ∧
    ((-5 : Int) ∈ (init 1 10).downHeap → _addDown (init 1 10) 5 = (init 1 10, false)) :=
  duplicate_request_idempotent (init 1 10) 5 1 (by decide) (by decide)
    (Or.inr (Or.inr rfl)) (by decide) (by decide)

/-! ### The bounds invariant (C5): membership and preservation lemmas -/

lemma peekUp_mem {e : Elevator} {c t : Int} (h : _peekUp e c = some t) :
    t ∈ e.upHeap := by
  rw [peekUp_eq] at h
  exact List.mem_of_mem_filter (int_min?_eq_some_iff.mp h).1

lemma peekUpBelow_mem {e : Elevator} {c t : Int} (h : _peekUpBelow e c = some t) :
    t ∈ e.upHeap := by
  unfold _peekUpBelow at h
  exact List.mem_of_mem_filter (int_min?_eq_some_iff.mp h).1

lemma peekAnyUp_mem {e : Elevator} {t : Int} (h : _peekAnyUp e = some t) :
    t ∈ e.upHeap := by
  unfold _peekAnyUp at h
  exact (int_min?_eq_some_iff.mp h).1

lemma peekDown_mem {e : Elevator} {c t : Int} (h : _peekDown e c = some t) :
    (-t) ∈ e.downHeap := by
  rw [peekDown_eq] at h
  rcases List.mem_map.mp
    (List.mem_of_mem_filter (int_max?_eq_some_iff.mp h).1) with ⟨n, hn, rfl⟩
  rw [neg_neg]
  exact hn

lemma peekDownAbove_mem {e : Elevator} {c t : Int} (h : _peekDownAbove e c = some t) :
    (-t) ∈ e.downHeap := by
  unfold _peekDownAbove at h
  rcases List.mem_map.mp
    (List.mem_of_mem_filter (int_max?_eq_some_iff.mp h).1) with ⟨n, hn, rfl⟩
  rw [neg_neg]
  exact hn

lemma peekAnyDown_mem {e : Elevator} {t : Int} (h : _peekAnyDown e = some t) :
    (-t) ∈ e.downHeap := by
  unfold _peekAnyDown at h
  cases hm : e.downHeap.min? with
  | none =>
    rw [hm] at h
    cases h
  | some n =>
    rw [hm] at h
    simp only [Option.map_some'] at h
    injection h with h
    subst h
    rw [neg_neg]
    exact (int_min?_eq_some_iff.mp hm).1

lemma nextTarget_mem {e : Elevator} {t : Int} (h : _nextTarget e = some t) :
    t ∈ e.upHeap ∨ (-t) ∈ e.downHeap := by
  unfold _nextTarget at h
  by_cases h1 : 0 < e.direction
  · rw [if_pos h1] at h
    cases hA : _peekUp e e.currentFloor with
    | some x =>
      rw [hA] at h
      simp only [] at h
      injection h with h
      subst h
      exact Or.inl (peekUp_mem hA)
    | none =>
      rw [hA] at h
      simp only [] at h
      cases hB : _peekDownAbove e e.currentFloor with
      | some x =>
        rw [hB] at h
        simp only [] at h
        injection h with h
        subst h
        exact Or.inr (peekDownAbove_mem hB)
      | none =>
        rw [hB] at h
        simp only [] at h
        cases hC : _peekDown e e.currentFloor with
        | some x =>
          rw [hC] at h
          simp only [] at h
          injection h with h
          subst h
          exact Or.inr (peekDown_mem hC)
        | none =>
          rw [hC] at h
          simp only [] at h
          exact Or.inl (peekUpBelow_mem h)
  · rw [if_neg h1] at h
    by_cases h2 : e.direction < 0
    · rw [if_pos h2] at h
      cases hA : _peekDown e e.currentFloor with
      | some x =>
        rw [hA] at h
        simp only [] at h
        injection h with h
        subst h
        exact Or.inr (peekDown_mem hA)
      | none =>
        rw [hA] at h
        simp only [] at h
        cases hB : _peekUpBelow e e.currentFloor with
        | some x =>
          rw [hB] at h
          simp only [] at h
          injection h with h
          subst h
          exact Or.inl (peekUpBelow_mem hB)
        | none =>
          rw [hB] at h
          simp only [] at h
          cases hC : _peekUp e e.currentFloor with
          | some x =>
            rw [hC] at h
            simp only [] at h
            injection h with h
            subst h
            exact Or.inl (peekUp_mem hC)
          | none =>
            rw [hC] at h
            simp only [] at h
            exact Or.inr (peekDownAbove_mem h)
    · rw [if_neg h2] at h
      cases hU : _peekAnyUp e with
      | none =>
        rw [hU] at h
        cases hD : _peekAnyDown e with
        | none =>
          rw [hD] at h
          simp only [] at h
          cases h
        | some d =>
          rw [hD] at h
          simp only [] at h
          injection h with h
          subst h
          exact Or.inr (peekAnyDown_mem hD)
      | some u =>
        rw [hU] at h
        cases hD : _peekAnyDown e with
        | none =>
          rw [hD] at h
          simp only [] at h
          injection h with h
          subst h
          exact Or.inl (peekAnyUp_mem hU)
        | some d =>
          rw [hD] at h
          simp only [] at h
          split at h
          · injection h with h
            subst h
            exact Or.inl (peekAnyUp_mem hU)
          · injection h with h
            subst h
            exact Or.inr (peekAnyDown_mem hD)

lemma nextTarget_bounded {e : Elevator} {t : Int} (hq : QueuesBounded e)
    (h : _nextTarget e = some t) : 0 ≤ t ∧ t ≤ e.maxFloor := by
  rcases nextTarget_mem h with hm | hm
  · exact hq.1 t hm
  · have h2 := hq.2 (-t) hm
    rw [neg_neg] at h2
    exact h2

lemma removeFloor_fields (e : Elevator) (floor : Int) :
    (_removeFloor e floor).id = e.id ∧
      (_removeFloor e floor).maxFloor = e.maxFloor ∧
      (_removeFloor e floor).currentFloor = e.currentFloor ∧
      (_removeFloor e floor).direction = e.direction ∧
      (_removeFloor e floor).activeTarget = e.activeTarget := by
  unfold _removeFloor
  split
  · split
    · exact ⟨rfl, rfl, rfl, rfl, rfl⟩
    · exact ⟨rfl, rfl, rfl, rfl, rfl⟩
  · split
    · split
      · exact ⟨rfl, rfl, rfl, rfl, rfl⟩
      · exact ⟨rfl, rfl, rfl, rfl, rfl⟩
    · exact ⟨rfl, rfl, rfl, rfl, rfl⟩

lemma removeFloor_upHeap_subset (e : Elevator) (floor : Int) :
    ∀ f ∈ (_removeFloor e floor).upHeap, f ∈ e.upHeap := by
  unfold _removeFloor
  split
  · split
    · intro f hf
      exact List.mem_of_mem_filter hf
    · intro f hf
      exact hf
  · split
    · split
      · intro f hf
        exact hf
      · intro f hf
        exact hf
    · intro f hf
      exact hf

lemma removeFloor_downHeap_subset (e : Elevator) (floor : Int) :
    ∀ n ∈ (_removeFloor e floor).downHeap, n ∈ e.downHeap := by
  unfold _removeFloor
  split
  · split
    · intro n hn
      exact hn
    · intro n hn
      exact hn
  · split
    · split
      · intro n hn
        exact List.mem_of_mem_filter hn
      · intro n hn
        exact hn
    · intro n hn
      exact hn

lemma removeFloor_bounded {e : Elevator} (hq : QueuesBounded e) (floor : Int) :
    QueuesBounded (_removeFloor e floor) := by
  constructor
  · intro f hf
    have hb := hq.1 f (removeFloor_upHeap_subset e floor f hf)
    rw [(removeFloor_fields e floor).2.1]
    exact hb
  · intro n hn
    have hb := hq.2 n (removeFloor_downHeap_subset e floor n hn)
    rw [(removeFloor_fields e floor).2.1]
    exact hb

lemma inv_retarget {e1 : Elevator}
    (hcur : 0 ≤ e1.currentFloor ∧ e1.currentFloor ≤ e1.maxFloor)
    (hq : QueuesBounded e1) :
    Inv { e1 with activeTarget := _nextTarget e1 } := by
  refine ⟨hcur, hq, ?_⟩
  intro t h
  exact nextTarget_bounded hq h

lemma advanceOnce_inv {e : Elevator} (hi : Inv e) : Inv (_advanceOnce e) := by
  rcases hi with ⟨⟨hc0, hcm⟩, hq, hts⟩
  unfold _advanceOnce
  cases ht : e.activeTarget with
  | none =>
    refine ⟨⟨hc0, hcm⟩, hq, ?_⟩
    intro t h'
    exact Option.noConfusion h'
  | some target =>
    obtain ⟨ht0, htm⟩ := hts target ht
    simp only []
    by_cases hlt : e.currentFloor < target
    · rw [if_pos hlt]
      have hed := removeFloor_fields
        { e with direction := 1, activeTarget := some target } e.currentFloor
      have hq1 : QueuesBounded
          ({ e with direction := 1, activeTarget := some target } : Elevator) := hq
      have hqed : QueuesBounded (_removeFloor
          { e with direction := 1, activeTarget := some target } e.currentFloor) :=
        removeFloor_bounded hq1 _
      have hedc : (_removeFloor
          { e with direction := 1, activeTarget := some target } e.currentFloor).currentFloor
          = e.currentFloor := hed.2.2.1
      have hedm : (_removeFloor
          { e with direction := 1, activeTarget := some target } e.currentFloor).maxFloor
          = e.maxFloor := hed.2.1
      have hedt : (_removeFloor
          { e with direction := 1, activeTarget := some target } e.currentFloor).activeTarget
          = some target := hed.2.2.2.2
      split
      · refine inv_retarget ⟨?_, ?_⟩ hqed
        · show 0 ≤ (_removeFloor
            { e with direction := 1, activeTarget := some target } e.currentFloor).currentFloor + 1
          rw [hedc]
          omega
        · show (_removeFloor
              { e with direction := 1, activeTarget := some target } e.currentFloor).currentFloor + 1
            ≤ (_removeFloor
              { e with direction := 1, activeTarget := some target } e.currentFloor).maxFloor
          rw [hedc, hedm]
          omega
      · refine ⟨⟨?_, ?_⟩, hqed, ?_⟩
        · show 0 ≤ (_removeFloor
            { e with direction := 1, activeTarget := some target } e.currentFloor).currentFloor + 1
          rw [hedc]
          omega
        · show (_removeFloor
              { e with direction := 1, activeTarget := some target } e.currentFloor).currentFloor + 1
            ≤ (_removeFloor
              { e with direction := 1, activeTarget := some target } e.currentFloor).maxFloor
          rw [hedc, hedm]
          omega
        · intro t' h'
          have h2 : (_removeFloor
              { e with direction := 1, activeTarget := some target } e.currentFloor).activeTarget
              = some t' := h'
          rw [hedt] at h2
          injection h2 with h2
          subst h2
          refine ⟨ht0, ?_⟩
          show target ≤ (_removeFloor
            { e with direction := 1, activeTarget := some target } e.currentFloor).maxFloor
          rw [hedm]
          exact htm
    · rw [if_neg hlt]
      by_cases hgt : target < e.currentFloor
      · rw [if_pos hgt]
        have hed := removeFloor_fields
          { e with direction := -1, activeTarget := some target } e.currentFloor
        have hq1 : QueuesBounded
            ({ e with direction := -1, activeTarget := some target } : Elevator) := hq
        have hqed : QueuesBounded (_removeFloor
            { e with direction := -1, activeTarget := some target } e.currentFloor) :=
          removeFloor_bounded hq1 _
        have hedc : (_removeFloor
            { e with direction := -1, activeTarget := some target } e.currentFloor).currentFloor
            = e.currentFloor := hed.2.2.1
        have hedm : (_removeFloor
            { e with direction := -1, activeTarget := some target } e.currentFloor).maxFloor
            = e.maxFloor := hed.2.1
        have hedt : (_removeFloor
            { e with direction := -1, activeTarget := some target } e.currentFloor).activeTarget
            = some target := hed.2.2.2.2
        split
        · refine inv_retarget ⟨?_, ?_⟩ hqed
          · show 0 ≤ (_removeFloor
              { e with direction := -1, activeTarget := some target } e.currentFloor).currentFloor - 1
            rw [hedc]
            omega
          · show (_removeFloor
                { e with direction := -1, activeTarget := some target } e.currentFloor).currentFloor - 1
              ≤ (_removeFloor
                { e with direction := -1, activeTarget := some target } e.currentFloor).maxFloor
            rw [hedc, hedm]
            omega
        · refine ⟨⟨?_, ?_⟩, hqed, ?_⟩
          · show 0 ≤ (_removeFloor
              { e with direction := -1, activeTarget := some target } e.currentFloor).currentFloor - 1
            rw [hedc]
            omega
          · show (_removeFloor
                { e with direction := -1, activeTarget := some target } e.currentFloor).currentFloor - 1
              ≤ (_removeFloor
                { e with direction := -1, activeTarget := some target } e.currentFloor).maxFloor
            rw [hedc, hedm]
            omega
          · intro t' h'
            have h2 : (_removeFloor
                { e with direction := -1, activeTarget := some target } e.currentFloor).activeTarget
                = some t' := h'
            rw [hedt] at h2
            injection h2 with h2
            subst h2
            refine ⟨ht0, ?_⟩
            show target ≤ (_removeFloor
              { e with direction := -1, activeTarget := some target } e.currentFloor).maxFloor
            rw [hedm]
            exact htm
      · rw [if_neg hgt]
        have heq : e.currentFloor = target := by omega
        rw [if_pos heq]
        exact inv_retarget ⟨hc0, hcm⟩ hq

lemma addUp_bounded {e : Elevator} {floor : Int} (hq : QueuesBounded e)
    (h0 : 0 ≤ floor) (hm : floor ≤ e.maxFloor) :
    QueuesBounded (_addUp e floor).1 := by
  unfold _addUp
  split
  · exact hq
  · constructor
    · intro f hf
      rcases List.mem_cons.mp hf with rfl | hf
      · exact ⟨h0, hm⟩
      · exact hq.1 f hf
    · exact hq.2

lemma addDown_bounded {e : Elevator} {floor : Int} (hq : QueuesBounded e)
    (h0 : 0 ≤ floor) (hm : floor ≤ e.maxFloor) :
    QueuesBounded (_addDown e floor).1 := by
  unfold _addDown
  split
  · exact hq
  · constructor
    · exact hq.1
    · intro n hn
      rcases List.mem_cons.mp hn with rfl | hn
      · rw [neg_neg]
        exact ⟨h0, hm⟩
      · exact hq.2 n hn

lemma requestFloor_inv {e : Elevator} (hi : Inv e) (floor direction : Int) :
    Inv (requestFloor e floor direction).1 := by
  rcases hi with ⟨hcur, hq, hts⟩
  unfold requestFloor
  cases hv : _validateFloor e floor with
  | some err => exact ⟨hcur, hq, hts⟩
  | none =>
    have hb : 0 ≤ floor ∧ floor ≤ e.maxFloor := by
      unfold _validateFloor at hv
      by_cases h1 : floor < 0
      · rw [if_pos h1] at hv
        cases hv
      · rw [if_neg h1] at hv
        by_cases h2 : e.maxFloor < floor
        · rw [if_pos h2] at hv
          cases hv
        · omega
    cases hd : _validateDirection direction with
    | some err => exact ⟨hcur, hq, hts⟩
    | none =>
      simp only []
      split
      · split
        · refine inv_retarget ⟨?_, ?_⟩ (addUp_bounded hq hb.1 hb.2)
          · show 0 ≤ (_addUp e floor).1.currentFloor
            rw [(addUp_fields e floor).2.2.1]
            exact hcur.1
          · show (_addUp e floor).1.currentFloor ≤ (_addUp e floor).1.maxFloor
            rw [(addUp_fields e floor).2.2.1, (addUp_fields e floor).2.1]
            exact hcur.2
        · split
          · refine inv_retarget ⟨?_, ?_⟩ (addDown_bounded hq hb.1 hb.2)
            · show 0 ≤ (_addDown e floor).1.currentFloor
              rw [(addDown_fields e floor).2.2.1]
              exact hcur.1
            · show (_addDown e floor).1.currentFloor ≤ (_addDown e floor).1.maxFloor
              rw [(addDown_fields e floor).2.2.1, (addDown_fields e floor).2.1]
              exact hcur.2
          · exact inv_retarget hcur hq
      · split
        · split
          · exact ⟨hcur, hq, hts⟩
          · refine inv_retarget ⟨?_, ?_⟩ (addUp_bounded hq hb.1 hb.2)
            · show 0 ≤ (_addUp e floor).1.currentFloor
              rw [(addUp_fields e floor).2.2.1]
              exact hcur.1
            · show (_addUp e floor).1.currentFloor ≤ (_addUp e floor).1.maxFloor
              rw [(addUp_fields e floor).2.2.1, (addUp_fields e floor).2.1]
              exact hcur.2
        · split
          · exact ⟨hcur, hq, hts⟩
          · refine inv_retarget ⟨?_, ?_⟩ (addDown_bounded hq hb.1 hb.2)
            · show 0 ≤ (_addDown e floor).1.currentFloor
              rw [(addDown_fields e floor).2.2.1]
              exact hcur.1
            · show (_addDown e floor).1.currentFloor ≤ (_addDown e floor).1.maxFloor
              rw [(addDown_fields e floor).2.2.1, (addDown_fields e floor).2.1]
              exact hcur.2

lemma advanceN_inv (n : Nat) {e : Elevator} (hi : Inv e) : Inv (advanceN n e) := by
  induction n generalizing e with
  | zero => exact hi
  | succ k ih => exact ih (advanceOnce_inv hi)

lemma step_inv {e : Elevator} (hi : Inv e) (steps : Int) : Inv (step e steps).1 := by
  unfold step
  split
  · exact hi
  · simp only []
    have h2 := advanceN_inv steps.toNat hi
    split
    · exact ⟨h2.1, h2.2.1, h2.2.2⟩
    · exact h2

lemma reset_inv {e : Elevator} (hi : Inv e) : Inv (reset e) := by
  refine ⟨⟨le_refl 0, ?_⟩, ⟨?_, ?_⟩, ?_⟩
  · show (0 : Int) ≤ e.maxFloor
    have h1 := hi.1
    omega
  · intro f hf
    cases hf
  · intro n hn
    cases hn
  · intro t h'
    exact Option.noConfusion h'

lemma init_inv (elevatorId maxFloor : Int) (hm : 0 ≤ maxFloor) :
    Inv (init elevatorId maxFloor) := by
  refine ⟨⟨le_refl 0, hm⟩, ⟨?_, ?_⟩, ?_⟩
  · intro f hf
    cases hf
  · intro n hn
    cases hn
  · intro t h'
    exact Option.noConfusion h'

lemma applyOp_inv {e : Elevator} (hi : Inv e) (op : Op) : Inv (applyOp e op) := by
  cases op with
  | request floor direction => exact requestFloor_inv hi floor direction
  | step steps => exact step_inv hi steps
  | reset => exact reset_inv hi

lemma run_inv {e : Elevator} (hi : Inv e) (ops : List Op) : Inv (run e ops) := by
  induction ops generalizing e with
  | nil => exact hi
  | cons op rest ih => exact ih (applyOp_inv hi op)

lemma requestFloor_maxFloor (e : Elevator) (floor direction : Int) :
    (requestFloor e floor direction).1.maxFloor = e.maxFloor := by
  unfold requestFloor
  cases hv : _validateFloor e floor with
  | some err => rfl
  | none =>
    cases hd : _validateDirection direction with
    | some err => rfl
    | none =>
      simp only []
      split
      · split
        · exact (addUp_fields e floor).2.1
        · split
          · exact (addDown_fields e floor).2.1
          · rfl
      · split
        · split
          · rfl
          · exact (addUp_fields e floor).2.1
        · split
          · rfl
          · exact (addDown_fields e floor).2.1

lemma advanceOnce_maxFloor (e : Elevator) :
    (_advanceOnce e).maxFloor = e.maxFloor := by
  unfold _advanceOnce
  cases ht : e.activeTarget with
  | none => rfl
  | some target =>
    simp only []
    by_cases hlt : e.currentFloor < target
    · rw [if_pos hlt]
      split
      · exact (removeFloor_fields
          { e with direction := 1, activeTarget := some target } e.currentFloor).2.1
      · exact (removeFloor_fields
          { e with direction := 1, activeTarget := some target } e.currentFloor).2.1
    · rw [if_neg hlt]
      by_cases hgt : target < e.currentFloor
      · rw [if_pos hgt]
        split
        · exact (removeFloor_fields
            { e with direction := -1, activeTarget := some target } e.currentFloor).2.1
        · exact (removeFloor_fields
            { e with direction := -1, activeTarget := some target } e.currentFloor).2.1
      · rw [if_neg hgt]
        split
        · rfl
        · rfl

lemma advanceN_maxFloor (n : Nat) (e : Elevator) :
    (advanceN n e).maxFloor = e.maxFloor := by
  induction n generalizing e with
  | zero => rfl
  | succ k ih => rw [advanceN, ih, advanceOnce_maxFloor]

lemma step_maxFloor (e : Elevator) (steps : Int) :
    (step e steps).1.maxFloor = e.maxFloor := by
  unfold step
  split
  · rfl
  · simp only []
    split
    · exact advanceN_maxFloor steps.toNat e
    · exact advanceN_maxFloor steps.toNat e

lemma applyOp_maxFloor (e : Elevator) (op : Op) :
    (applyOp e op).maxFloor = e.maxFloor := by
  cases op with
  | request floor direction => exact requestFloor_maxFloor e floor direction
  | step steps => exact step_maxFloor e steps
  | reset => rfl

lemma run_maxFloor (e : Elevator) (ops : List Op) :
    (run e ops).maxFloor = e.maxFloor := by
  induction ops generalizing e with
  | nil => rfl
  | cons op rest ih =>
    show (run (applyOp e op) rest).maxFloor = e.maxFloor
    rw [ih, applyOp_maxFloor]

/-- C5: from the initial state (any `elevatorId`, any non-negative
`maxFloor`), every state reachable by a sequence of `requestFloor`, `step`
and `reset` operations has `currentFloor` within `[0, maxFloor]`. -/
theorem currentFloor_within_bounds (elevatorId maxFloor : Int)
    (ops : List Op) (hm : 0 ≤ maxFloor) :
    0 ≤ (run (init elevatorId maxFloor) ops).currentFloor ∧
      (run (init elevatorId maxFloor) ops).currentFloor ≤ maxFloor := by
  have hi := run_inv (init_inv elevatorId maxFloor hm) ops
  have hmax := run_maxFloor (init elevatorId maxFloor) ops
  refine ⟨hi.1.1, ?_⟩
  have h2 := hi.1.2
  rw [hmax] at h2
  exact h2


/-- C5 witness: a concrete run on a fresh elevator with `maxFloor = 10`. -/
theorem currentFloor_within_bounds_witness :
    0 ≤ (run (init 1 10) [.request 3 1, .step 2]).currentFloor ∧
      (run (init 1 10) [.request 3 1, .step 2]).currentFloor ≤ 10 :=
  currentFloor_within_bounds 1 10 [.request 3 1, .step 2] (by decide)

end TheElevator
